import Mathlib

/-!
Shallow embedding of the module-orchestration core of xivanalysis,
translated from src/parser/core/Parser.js.

Modules are modelled by their behaviour at the engine boundary: the static
`dependencies` and `displayOrder` declared on the constructor, the
`normalise` pass over the event list (which may fail, modelled with
`Except`), whether `triggerEvent` throws on a given event, and the value
`output()` returns (`none` models an absent, falsy output).  A ghost `log`
field on the parser state records every normalise invocation and every
event delivery so that ordering claims can be stated; the JavaScript code
has no such field and the log never influences control flow.
-/

namespace Xiv

/-- An event record: a type tag, a timestamp, and the marker the engine
stamps on fabricated events. -/
structure Event where
  type : String
  timestamp : Int
  fabricated : Bool
deriving DecidableEq

/-- A per-module failure record: either the module itself threw during
`triggerEvent`, or a DependencyCascadeError synthesised for a dependent of
a failed module, carrying the identifier of the dependency that failed. -/
inductive ModuleError where
  | runtime : ModuleError
  | dependencyCascade (dependency : String) : ModuleError
deriving DecidableEq

/-- Ghost trace entries: a module's `normalise` was invoked, or an event
was delivered to a module's `triggerEvent`. -/
inductive LogEntry where
  | normalised (mod : String) : LogEntry
  | delivered (mod : String) (ev : Event) : LogEntry
deriving DecidableEq

/-- A module, modelled by its engine-visible behaviour.  Internal module
state is not observable by the engine, so `throws` and `output` are
functions of the delivered event and of the module respectively. -/
structure Module where
  name : String
  dependencies : List String
  displayOrder : Int
  normalise : List Event → Except String (List Event)
  throws : Event → Bool
  output : Option String

instance : Inhabited Module :=
  ⟨⟨"", [], 0, fun evs => Except.ok evs, fun _ => false, none⟩⟩

/-- The fields of the Parser class that the orchestration core reads and
writes.  `constructors` is the `_constructors` object (a JavaScript object
whose keys iterate in insertion order, hence an association list),
`modules` the instance table, `moduleErrors` the `_moduleErrors` object,
`triggerModules` the `_triggerModules` array. -/
structure ParserState where
  constructors : List (String × Module)
  modules : List (String × Module)
  moduleOrder : List String
  triggerModules : List String
  moduleErrors : List (String × ModuleError)
  timestamp : Int
  fightStart : Int
  fightEnd : Int
  log : List LogEntry

def keysOf (cons : List (String × Module)) : List String := cons.map Prod.fst

def lookupC (cons : List (String × Module)) (k : String) : Option Module :=
  (cons.find? (fun p => p.1 == k)).map Prod.snd

def lookupModule (st : ParserState) (k : String) : Option Module :=
  (st.modules.find? (fun p => p.1 == k)).map Prod.snd

/-- Dependencies a registered identifier declares; `[]` when unregistered. -/
def depsOf (cons : List (String × Module)) (k : String) : List String :=
  ((lookupC cons k).map Module.dependencies).getD []

def assocGet (l : List (String × ModuleError)) (k : String) : Option ModuleError :=
  (l.find? (fun p => p.1 == k)).map Prod.snd

/-- JavaScript object assignment `o[k] = v`: updates the value in place
when the key exists (keeping key order), otherwise appends the key. -/
def assocSet (l : List (String × ModuleError)) (k : String) (v : ModuleError) :
    List (String × ModuleError) :=
  if l.any (fun p => p.1 == k) then
    l.map (fun p => if p.1 == k then (k, v) else p)
  else l ++ [(k, v)]

def errorKeys (st : ParserState) : List String := st.moduleErrors.map Prod.fst

/-- Models `arr.splice(arr.indexOf(x), 1)`: removes the first occurrence of `x`
when present; when `indexOf` returns -1, `splice(-1, 1)` removes the LAST
element of the array. -/
def spliceRemove (l : List String) (x : String) : List String :=
  if x ∈ l then l.erase x else l.dropLast

/-- The `currentTimestamp` getter: the clock clamped to the fight end. -/
def currentTimestamp (st : ParserState) : Int := min st.fightEnd st.timestamp

/-- Translates `_setModuleError(mod, error)`: remove the module from the live array,
record its error, then recurse into every registered constructor whose
declared dependencies include the failed identifier.  The JavaScript
recursion is unbounded; the `fuel` argument only serves Lean termination
and is always called with more fuel than the recursion can consume on the
acyclic graphs that reach the trigger phase. -/
def setModuleError : Nat → ParserState → String → ModuleError → ParserState
  | 0, st, _, _ => st
  | fuel+1, st, mod, err =>
    let st1 : ParserState :=
      { st with
        triggerModules := spliceRemove st.triggerModules mod,
        moduleErrors := assocSet st.moduleErrors mod err }
    st1.constructors.foldl
      (fun s p =>
        if mod ∈ p.2.dependencies then
          setModuleError fuel s p.1 (ModuleError.dependencyCascade mod)
        else s) st1

def cascadeFuel (st : ParserState) : Nat := st.constructors.length + 1

/-- One iteration of the `forEach` inside `triggerEvent`, at callback index
`k`.  JavaScript `forEach` checks, at each index below the length captured
when iteration started, whether the (possibly spliced) array still has that
index; so the element visited is the CURRENT element at index `k`, and
indices beyond the current length are skipped.  A failed instance-table
lookup would itself throw inside the `try`, hence the `none` branch also
records an error. -/
def triggerVisit (ev : Event) (st : ParserState) (k : Nat) : ParserState :=
  match st.triggerModules.get? k with
  | none => st
  | some mod =>
    match lookupModule st mod with
    | none => setModuleError (cascadeFuel st) st mod ModuleError.runtime
    | some m =>
      let st1 : ParserState := { st with log := st.log ++ [LogEntry.delivered mod ev] }
      if m.throws ev then setModuleError (cascadeFuel st1) st1 mod ModuleError.runtime
      else st1

/-- Translates `triggerEvent(event)`: `this._triggerModules.forEach`, with the module
call wrapped in try/catch that routes any thrown error to
`_setModuleError`. -/
def triggerEvent (ev : Event) (st : ParserState) : ParserState :=
  (List.range st.triggerModules.length).foldl (triggerVisit ev) st

/-- The partial event object handed to `fabricateEvent`; a missing
timestamp means the spread will keep the engine-supplied default. -/
structure ProtoEvent where
  type : String
  timestamp : Option Int := none

/-- Translates `fabricateEvent(event)`: spreads the caller's fields over a default
timestamp (the clamped current clock) and stamps `__fabricated: true`
after the spread, so the marker cannot be overridden. -/
def fabricateEvent (st : ParserState) (proto : ProtoEvent) : ParserState :=
  triggerEvent
    { type := proto.type,
      timestamp := proto.timestamp.getD (currentTimestamp st),
      fabricated := true } st

/-- The normaliser loop at the top of `parseEvents`: each module may
rewrite the event list, the rewritten list flows to the next module, and
there is deliberately no error handling, so a failure aborts everything. -/
def normalisePhase : List String → List Event → ParserState →
    Except String (List Event × ParserState)
  | [], evs, st => Except.ok (evs, st)
  | mod :: rest, evs, st =>
    match lookupModule st mod with
    | none => Except.error "TypeError"
    | some m =>
      let st1 : ParserState := { st with log := st.log ++ [LogEntry.normalised mod] }
      match m.normalise evs with
      | Except.error e => Except.error e
      | Except.ok evs2 => normalisePhase rest evs2 st1

/-- Translates `parseEvents(events)`: run the normalisers in module order, copy the
module order into `_triggerModules`, fabricate `init`, deliver every
normalised event (advancing `_timestamp` first), fabricate `complete`. -/
def parseEvents (st : ParserState) (events : List Event) : Except String ParserState :=
  match normalisePhase st.moduleOrder events st with
  | Except.error e => Except.error e
  | Except.ok (evs, st1) =>
    let st2 : ParserState := { st1 with triggerModules := st1.moduleOrder }
    let st3 := fabricateEvent st2 { type := "init" }
    let st4 := evs.foldl (fun s ev => triggerEvent ev { s with timestamp := ev.timestamp }) st3
    Except.ok (fabricateEvent st4 { type := "complete" })

/-- Modelled from the spec: `buildModules` computes its order with the
third-party toposort library, `toposort.array(nodes, edges).reverse()`,
whose source is not part of this repository.  Following section 4.1 of the
spec, the resolver is modelled as a stable topological sort: repeatedly
place the first registered module all of whose dependencies are already
placed; when no module can be placed, fail with a CyclicDependencyError
naming the modules still unplaced.  The fuel starts at the number of
descriptors, which the loop can never exceed since every step places one. -/
def kahnLoop : Nat → List String → List (String × Module) →
    Except (List String) (List String)
  | 0, placed, remaining =>
    if remaining.isEmpty then Except.ok placed else Except.error (keysOf remaining)
  | fuel+1, placed, remaining =>
    match remaining.find? (fun p => p.2.dependencies.all (fun d => placed.contains d)) with
    | none =>
      if remaining.isEmpty then Except.ok placed else Except.error (keysOf remaining)
    | some p => kahnLoop fuel (placed ++ [p.1]) (remaining.filter (fun q => !(q.1 == p.1)))

def resolveOrder (cons : List (String × Module)) : Except (List String) (List String) :=
  kahnLoop cons.length [] cons

/-- Translates `buildModules()`: resolve the order, then instantiate one module per
identifier in that order.  A resolution failure throws before the
instantiation loop runs, so no instance is constructed on the error path.
Dependency injection wires instance references; in this behavioural model
an instance is its constructor's behaviour record. -/
def buildModules (st : ParserState) : Except (List String) ParserState :=
  match resolveOrder st.constructors with
  | Except.error cyc => Except.error cyc
  | Except.ok order =>
    Except.ok
      { st with
        moduleOrder := order,
        modules := order.foldl (fun tbl mod =>
          match lookupC st.constructors mod with
          | some m => tbl ++ [(mod, m)]
          | none => tbl) [] }

/-- The markup of one report entry: an ErrorMessage element for a failed
module, or the module's own output. -/
inductive Markup where
  | errorMessage (err : ModuleError) : Markup
  | output (s : String) : Markup
deriving DecidableEq

def nameOf (st : ParserState) (mod : String) : String :=
  ((lookupModule st mod).map Module.name).getD mod

def outputOf (st : ParserState) (mod : String) : Option String :=
  (lookupModule st mod).bind Module.output

def displayKey (st : ParserState) (mod : String) : Int :=
  ((lookupModule st mod).map Module.displayOrder).getD 0

/-- The body of the `displayOrder.forEach` in `generateResults`: an error
entry when the module has a recorded error, otherwise an entry exactly
when `output()` is non-absent. -/
def resultEntry (st : ParserState) (mod : String) : Option (String × Markup) :=
  match assocGet st.moduleErrors mod with
  | some err => some (nameOf st mod, Markup.errorMessage err)
  | none =>
    match outputOf st mod with
    | some o => some (nameOf st mod, Markup.output o)
    | none => none

def displayLE (st : ParserState) (a b : String) : Prop :=
  displayKey st a ≤ displayKey st b

instance (st : ParserState) : DecidableRel (displayLE st) := fun a b =>
  inferInstanceAs (Decidable (displayKey st a ≤ displayKey st b))

/-- The in-place `displayOrder.sort` on `this.moduleOrder` with the
numeric comparator; `Array.prototype.sort` is stable, modelled by stable
insertion sort. -/
def sortByDisplayOrder (st : ParserState) : List String :=
  List.insertionSort (displayLE st) st.moduleOrder

/-- Models `results.push(...)` for one visited module. -/
def pushEntry (st : ParserState) (acc : List (String × Markup)) (mod : String) :
    List (String × Markup) :=
  match resultEntry st mod with
  | some r => acc ++ [r]
  | none => acc

/-- Translates `generateResults()`: sorts the module order in place by display order,
then pushes one entry per failed module and one per module with a
non-absent output.  Returns the results together with the mutated state. -/
def generateResults (st : ParserState) : List (String × Markup) × ParserState :=
  let ord := sortByDisplayOrder st
  (ord.foldl (pushEntry st) [], { st with moduleOrder := ord })

/-- Transitive dependency test on the registry, by bounded unfolding of
the declared dependency lists. -/
def dependsOnFuel (cons : List (String × Module)) : Nat → String → String → Bool
  | 0, _, _ => false
  | fuel+1, x, y => (depsOf cons x).any (fun d => d == y || dependsOnFuel cons fuel d y)

def dependsOn (cons : List (String × Module)) (x y : String) : Bool :=
  dependsOnFuel cons cons.length x y

/-- A dependency cycle: a nonempty identifier list in which each member
declares the (cyclically) next member as a dependency. -/
def IsDepCycle (cons : List (String × Module)) (c : List String) : Prop :=
  c ≠ [] ∧ ∀ i, (h : i < c.length) →
    c.get ⟨(i+1) % c.length, Nat.mod_lt _ (Nat.lt_of_le_of_lt (Nat.zero_le i) h)⟩ ∈
      depsOf cons (c.get ⟨i, h⟩)

instance (cons : List (String × Module)) (c : List String) :
    Decidable (IsDepCycle cons c) := by
  unfold IsDepCycle
  infer_instance

def isDelivery : LogEntry → Prop
  | LogEntry.delivered _ _ => True
  | LogEntry.normalised _ => False

/-- The second state's log extends the first's by delivery entries only. -/
def LogExt (a b : ParserState) : Prop :=
  ∃ rest, b.log = a.log ++ rest ∧ ∀ x ∈ rest, isDelivery x

/-- The observable outcome of a run: the ghost log, the surviving live
list and the recorded errors, or `none` when the run aborted. -/
def runObs (st : ParserState) (events : List Event) :
    Option (List LogEntry × List String × List (String × ModuleError)) :=
  match parseEvents st events with
  | Except.ok st1 => some (st1.log, st1.triggerModules, st1.moduleErrors)
  | Except.error _ => none

/-- A parser state as the constructor plus `buildModules` would leave it,
with a caller-chosen module order. -/
def mkState (cons : List (String × Module)) (order : List String)
    (fstart fend : Int) : ParserState :=
  { constructors := cons, modules := cons, moduleOrder := order,
    triggerModules := [], moduleErrors := [], timestamp := fstart,
    fightStart := fstart, fightEnd := fend, log := [] }

/-- A module with identity normalise that throws exactly on the listed
event types. -/
def mkModule (name : String) (deps : List String) (prio : Int)
    (throwTypes : List String) (out : Option String) : Module :=
  { name := name, dependencies := deps, displayOrder := prio,
    normalise := fun evs => Except.ok evs,
    throws := fun ev => throwTypes.contains ev.type,
    output := out }

/-- The ghost log of a run, or `none` when the run aborted. -/
def runLog (st : ParserState) (events : List Event) : Option (List LogEntry) :=
  match parseEvents st events with
  | Except.ok st1 => some st1.log
  | Except.error _ => none

/-- The module order `buildModules` produces, or `none` on failure. -/
def buildOrderObs (st : ParserState) : Option (List String) :=
  (buildModules st).toOption.map ParserState.moduleOrder

/-- The run-state invariant of section 3 of the spec: the live array holds
no duplicates and is disjoint from the identifiers with a recorded error. -/
def Inv (st : ParserState) : Prop :=
  st.triggerModules.Nodup ∧ ∀ m ∈ st.triggerModules, m ∉ errorKeys st

instance (st : ParserState) : Decidable (Inv st) := by
  unfold Inv
  infer_instance

/-- Every split of the order places a module's declared dependencies among
the elements strictly before it. -/
def PlacedOK (cons : List (String × Module)) (placed : List String) : Prop :=
  ∀ i, ∀ h : i < placed.length,
    ∀ d ∈ depsOf cons (placed.get ⟨i, h⟩), d ∈ placed.take i

/-- C1 scenario: a diamond (d depends on a and b, b depends on a) plus an
unrelated module e; a throws on the first cast event. -/
def consC1 : List (String × Module) :=
  [("a", mkModule "A" [] 0 ["cast"] (some "outA")),
   ("b", mkModule "B" ["a"] 0 [] (some "outB")),
   ("d", mkModule "D" ["a", "b"] 0 [] (some "outD")),
   ("e", mkModule "E" [] 0 [] (some "outE"))]

def stC1 : ParserState := mkState consC1 ["a", "b", "d", "e"] 0 100

def evsC1 : List Event := [⟨"cast", 5, false⟩]

def logC1 : List LogEntry :=
  [LogEntry.normalised "a", LogEntry.normalised "b",
   LogEntry.normalised "d", LogEntry.normalised "e",
   LogEntry.delivered "a" ⟨"init", 0, true⟩,
   LogEntry.delivered "b" ⟨"init", 0, true⟩,
   LogEntry.delivered "d" ⟨"init", 0, true⟩,
   LogEntry.delivered "e" ⟨"init", 0, true⟩,
   LogEntry.delivered "a" ⟨"cast", 5, false⟩]

def errsC1 : List (String × ModuleError) :=
  [("a", ModuleError.runtime),
   ("b", ModuleError.dependencyCascade "a"),
   ("d", ModuleError.dependencyCascade "a")]

/-- C2 scenario: three mutually independent modules; a throws on the first
event; a second event and the complete event follow. -/
def consC2 : List (String × Module) :=
  [("a", mkModule "A" [] 0 ["cast"] (some "outA")),
   ("b", mkModule "B" [] 0 [] (some "outB")),
   ("c", mkModule "C" [] 0 [] (some "outC"))]

def stC2 : ParserState := mkState consC2 ["a", "b", "c"] 0 100

def evsC2 : List Event := [⟨"cast", 5, false⟩, ⟨"heal", 7, false⟩]

def logC2 : List LogEntry :=
  [LogEntry.normalised "a", LogEntry.normalised "b", LogEntry.normalised "c",
   LogEntry.delivered "a" ⟨"init", 0, true⟩,
   LogEntry.delivered "b" ⟨"init", 0, true⟩,
   LogEntry.delivered "c" ⟨"init", 0, true⟩,
   LogEntry.delivered "a" ⟨"cast", 5, false⟩,
   LogEntry.delivered "c" ⟨"cast", 5, false⟩,
   LogEntry.delivered "b" ⟨"heal", 7, false⟩,
   LogEntry.delivered "c" ⟨"heal", 7, false⟩,
   LogEntry.delivered "b" ⟨"complete", 7, true⟩,
   LogEntry.delivered "c" ⟨"complete", 7, true⟩]

/-- C7 scenario: two independent modules; a throws on the fabricated init
event itself. -/
def consC7 : List (String × Module) :=
  [("a", mkModule "A" [] 0 ["init"] (some "outA")),
   ("b", mkModule "B" [] 0 [] (some "outB"))]

def stC7 : ParserState := mkState consC7 ["a", "b"] 0 100

def evsC7 : List Event := [⟨"cast", 5, false⟩]

def logC7 : List LogEntry :=
  [LogEntry.normalised "a", LogEntry.normalised "b",
   LogEntry.delivered "a" ⟨"init", 0, true⟩,
   LogEntry.delivered "b" ⟨"cast", 5, false⟩,
   LogEntry.delivered "b" ⟨"complete", 5, true⟩]

/-- C6 witness scenarios: a clean two-module run, and a one-module set
whose normalise fails. -/
def consC6 : List (String × Module) :=
  [("a", mkModule "A" [] 0 [] (some "outA")),
   ("b", mkModule "B" [] 0 [] none)]

def stC6 : ParserState := mkState consC6 ["a", "b"] 0 100

def evsC6 : List Event := [⟨"cast", 3, false⟩]

def logC6 : List LogEntry :=
  [LogEntry.normalised "a", LogEntry.normalised "b",
   LogEntry.delivered "a" ⟨"init", 0, true⟩,
   LogEntry.delivered "b" ⟨"init", 0, true⟩,
   LogEntry.delivered "a" ⟨"cast", 3, false⟩,
   LogEntry.delivered "b" ⟨"cast", 3, false⟩,
   LogEntry.delivered "a" ⟨"complete", 3, true⟩,
   LogEntry.delivered "b" ⟨"complete", 3, true⟩]

def badMod : Module :=
  { mkModule "bad" [] 0 [] none with normalise := fun _ => Except.error "normalise boom" }

def consC6b : List (String × Module) := [("bad", badMod)]

def stC6b : ParserState := mkState consC6b ["bad"] 0 100

/-- C3 witness state: mid-run, a already failed, b and c live. -/
def stC3w : ParserState :=
  { mkState consC2 ["a", "b", "c"] 0 100 with
      triggerModules := ["b", "c"],
      moduleErrors := [("a", ModuleError.runtime)] }

def evC3w : Event := ⟨"cast", 5, false⟩

/-- C4 witness: two modules, dependency registered after its dependent. -/
def consC4 : List (String × Module) :=
  [("b", mkModule "B" ["a"] 0 [] none), ("a", mkModule "A" [] 0 [] none)]

def stC4 : ParserState := mkState consC4 [] 0 100

def rankC4 : String → Nat := fun s => if s = "b" then 1 else 0

/-- C5 witness: a two-cycle. -/
def consC5 : List (String × Module) :=
  [("a", mkModule "A" ["b"] 0 [] none), ("b", mkModule "B" ["a"] 0 [] none)]

def stC5 : ParserState := mkState consC5 [] 0 100

/-- C9 counterexample: a depends on the later-registered z; b is
unconstrained either way with respect to a, yet the order cannot keep both
pairs in registration order. -/
def consC9 : List (String × Module) :=
  [("a", mkModule "A" ["z"] 0 [] none),
   ("b", mkModule "B" [] 0 [] none),
   ("z", mkModule "Z" [] 0 [] none)]

def stC9 : ParserState := mkState consC9 [] 0 100

/-- C9 amended-claim witness: two dependency-free modules. -/
def consC9w : List (String × Module) :=
  [("x", mkModule "X" [] 0 [] none), ("y", mkModule "Y" [] 0 [] none)]

def stC9w : ParserState := mkState consC9w [] 0 100

lemma dropLast_sub {α : Type} (l : List α) : l.dropLast.Sublist l := by
  induction l with
  | nil => exact List.Sublist.refl _
  | cons a t ih =>
    cases t with
    | nil => simp
    | cons b u =>
      simp only [List.dropLast]
      exact ih.cons₂ a

lemma spliceRemove_sublist (l : List String) (x : String) :
    (spliceRemove l x).Sublist l := by
  by_cases hxl : x ∈ l
  · rw [spliceRemove, if_pos hxl]
    exact List.erase_sublist x l
  · rw [spliceRemove, if_neg hxl]
    exact dropLast_sub l

lemma not_mem_spliceRemove_self {l : List String} (hn : l.Nodup) (x : String) :
    x ∉ spliceRemove l x := by
  by_cases hxl : x ∈ l
  · rw [spliceRemove, if_pos hxl]
    exact hn.not_mem_erase
  · rw [spliceRemove, if_neg hxl]
    intro hx
    exact hxl ((dropLast_sub l).subset hx)

lemma keys_assocSet (l : List (String × ModuleError)) (k : String) (v : ModuleError) :
    (assocSet l k v).map Prod.fst = l.map Prod.fst ∨
      (assocSet l k v).map Prod.fst = l.map Prod.fst ++ [k] := by
  unfold assocSet
  by_cases hany : l.any (fun p => p.1 == k)
  · left
    rw [if_pos hany, List.map_map]
    apply List.map_congr_left
    intro p _
    by_cases hp : p.1 == k
    · simp only [Function.comp, hp, if_pos]
      exact (eq_of_beq hp).symm
    · simp only [Function.comp, hp, if_neg]
      simp [hp]
  · right
    rw [if_neg hany, List.map_append]
    rfl

lemma mem_keys_assocSet {l : List (String × ModuleError)} {k : String}
    {v : ModuleError} {m : String} (h : m ∈ (assocSet l k v).map Prod.fst) :
    m ∈ l.map Prod.fst ∨ m = k := by
  rcases keys_assocSet l k v with he | he <;> rw [he] at h
  · exact Or.inl h
  · rcases List.mem_append.mp h with h1 | h2
    · exact Or.inl h1
    · exact Or.inr (List.mem_singleton.mp h2)

lemma keys_assocSet_mono {l : List (String × ModuleError)} {k : String}
    {v : ModuleError} {m : String} (h : m ∈ l.map Prod.fst) :
    m ∈ (assocSet l k v).map Prod.fst := by
  rcases keys_assocSet l k v with he | he <;> rw [he]
  · exact h
  · exact List.mem_append_left _ h

lemma foldl_pres {α : Type} {P : ParserState → Prop} {f : ParserState → α → ParserState}
    (hf : ∀ s x, P s → P (f s x)) :
    ∀ (l : List α) (s : ParserState), P s → P (l.foldl f s) := by
  intro l
  induction l with
  | nil => intro s h; exact h
  | cons a t ih => intro s h; exact ih _ (hf s a h)

lemma foldl_rel {α : Type} {R : ParserState → ParserState → Prop}
    (hrefl : ∀ s, R s s) (htrans : ∀ a b c, R a b → R b c → R a c)
    {f : ParserState → α → ParserState} (hf : ∀ s x, R s (f s x)) :
    ∀ (l : List α) (s : ParserState), R s (l.foldl f s) := by
  intro l
  induction l with
  | nil => intro s; exact hrefl s
  | cons a t ih => intro s; exact htrans _ _ _ (hf s a) (ih (f s a))

lemma setModuleError_trig_sublist :
    ∀ (fuel : Nat) (st : ParserState) (mod : String) (err : ModuleError),
      (setModuleError fuel st mod err).triggerModules.Sublist st.triggerModules := by
  intro fuel
  induction fuel with
  | zero => intro st mod err; exact List.Sublist.refl _
  | succ n ih =>
    intro st mod err
    simp only [setModuleError]
    refine List.Sublist.trans
      (foldl_rel (R := fun a b => b.triggerModules.Sublist a.triggerModules)
        (fun s => List.Sublist.refl _)
        (fun a b c h1 h2 => h2.trans h1)
        (fun s p => by
          by_cases hd : mod ∈ p.2.dependencies
          · simpa [hd] using ih s p.1 (ModuleError.dependencyCascade mod)
          · simp [hd]) _ _)
      (spliceRemove_sublist st.triggerModules mod)

lemma setModuleError_err_mono :
    ∀ (fuel : Nat) (st : ParserState) (mod : String) (err : ModuleError) (m : String),
      m ∈ errorKeys st → m ∈ errorKeys (setModuleError fuel st mod err) := by
  intro fuel
  induction fuel with
  | zero => intro st mod err m h; exact h
  | succ n ih =>
    intro st mod err m h
    simp only [setModuleError]
    refine foldl_rel (R := fun a b => ∀ x, x ∈ errorKeys a → x ∈ errorKeys b)
      (fun s x hx => hx)
      (fun a b c h1 h2 x hx => h2 x (h1 x hx))
      (fun s p => by
        by_cases hd : mod ∈ p.2.dependencies
        · simpa [hd] using fun x hx => ih s p.1 (ModuleError.dependencyCascade mod) x hx
        · simp [hd]) _ _ m ?_
    exact keys_assocSet_mono h

lemma setModuleError_log :
    ∀ (fuel : Nat) (st : ParserState) (mod : String) (err : ModuleError),
      (setModuleError fuel st mod err).log = st.log := by
  intro fuel
  induction fuel with
  | zero => intro st mod err; rfl
  | succ n ih =>
    intro st mod err
    simp only [setModuleError]
    exact foldl_rel (R := fun a b => b.log = a.log)
      (fun s => rfl)
      (fun a b c h1 h2 => h2.trans h1)
      (fun s p => by
        by_cases hd : mod ∈ p.2.dependencies
        · simpa [hd] using ih s p.1 (ModuleError.dependencyCascade mod)
        · simp [hd]) _ _

lemma setModuleError_inv :
    ∀ (fuel : Nat) (st : ParserState) (mod : String) (err : ModuleError),
      Inv st → Inv (setModuleError fuel st mod err) := by
  intro fuel
  induction fuel with
  | zero => intro st mod err h; exact h
  | succ n ih =>
    intro st mod err h
    simp only [setModuleError]
    refine foldl_pres
      (fun s p hs => by
        by_cases hd : mod ∈ p.2.dependencies
        · simpa [hd] using ih s p.1 (ModuleError.dependencyCascade mod) hs
        · simpa [hd] using hs) _ _ ?_
    constructor
    · exact (spliceRemove_sublist _ _).nodup h.1
    · intro m hm hk
      have hm' : m ∈ st.triggerModules := (spliceRemove_sublist _ _).subset hm
      have hmod : m ≠ mod := by
        intro hEq
        subst hEq
        exact not_mem_spliceRemove_self h.1 m hm
      rcases mem_keys_assocSet hk with h1 | h2
      · exact h.2 m hm' h1
      · exact hmod h2

lemma triggerVisit_trig_sublist (ev : Event) (st : ParserState) (k : Nat) :
    (triggerVisit ev st k).triggerModules.Sublist st.triggerModules := by
  unfold triggerVisit
  split
  · exact List.Sublist.refl _
  · split
    · exact setModuleError_trig_sublist _ _ _ _
    · split
      · exact setModuleError_trig_sublist _ _ _ _
      · exact List.Sublist.refl _

lemma triggerVisit_err_mono (ev : Event) (st : ParserState) (k : Nat) (m : String)
    (h : m ∈ errorKeys st) : m ∈ errorKeys (triggerVisit ev st k) := by
  unfold triggerVisit
  split
  · exact h
  · split
    · exact setModuleError_err_mono _ _ _ _ _ h
    · split
      · exact setModuleError_err_mono _ _ _ _ _ h
      · exact h

lemma triggerVisit_inv (ev : Event) (st : ParserState) (k : Nat) (h : Inv st) :
    Inv (triggerVisit ev st k) := by
  unfold triggerVisit
  split
  · exact h
  · split
    · exact setModuleError_inv _ _ _ _ h
    · split
      · exact setModuleError_inv _ _ _ _ h
      · exact h

lemma triggerEvent_trig_sublist (ev : Event) (st : ParserState) :
    (triggerEvent ev st).triggerModules.Sublist st.triggerModules := by
  unfold triggerEvent
  exact foldl_rel (R := fun a b => b.triggerModules.Sublist a.triggerModules)
    (fun s => List.Sublist.refl _)
    (fun a b c h1 h2 => h2.trans h1)
    (fun s x => triggerVisit_trig_sublist ev s x) _ _

lemma triggerEvent_err_mono (ev : Event) (st : ParserState) (m : String)
    (h : m ∈ errorKeys st) : m ∈ errorKeys (triggerEvent ev st) := by
  unfold triggerEvent
  exact foldl_rel (R := fun a b => ∀ x, x ∈ errorKeys a → x ∈ errorKeys b)
    (fun s x hx => hx)
    (fun a b c h1 h2 x hx => h2 x (h1 x hx))
    (fun s x y hy => triggerVisit_err_mono ev s x y hy) _ _ m h

lemma triggerEvent_inv (ev : Event) (st : ParserState) (h : Inv st) :
    Inv (triggerEvent ev st) := by
  unfold triggerEvent
  exact foldl_pres (fun s x hs => triggerVisit_inv ev s x hs) _ _ h

/-- C3: confirmed.  Every atomic step of the trigger phase, a single
callback iteration (triggerVisit, which is where _setModuleError and its
cascade run) as well as a whole event delivery (triggerEvent), preserves
the run-state invariant: the live array stays duplicate-free and disjoint
from the error map, the live array only shrinks (Sublist), the error map
keys only grow, and an identifier that has an error entry is not live
afterwards, so it never re-enters the live array.  Every state during the
trigger phase of a run arises from the initial state, which has an empty
error map, by these steps. -/
theorem C3_live_error_invariants (st : ParserState) (ev : Event) (k : Nat)
    (h : Inv st) :
    Inv (triggerVisit ev st k) ∧
    (triggerVisit ev st k).triggerModules.Sublist st.triggerModules ∧
    (∀ m, m ∈ errorKeys st → m ∈ errorKeys (triggerVisit ev st k)) ∧
    (∀ m, m ∈ errorKeys st → m ∉ (triggerVisit ev st k).triggerModules) ∧
    Inv (triggerEvent ev st) ∧
    (triggerEvent ev st).triggerModules.Sublist st.triggerModules ∧
    (∀ m, m ∈ errorKeys st → m ∈ errorKeys (triggerEvent ev st)) ∧
    (∀ m, m ∈ errorKeys st → m ∉ (triggerEvent ev st).triggerModules) := by
  refine ⟨triggerVisit_inv ev st k h, triggerVisit_trig_sublist ev st k,
    fun m hm => triggerVisit_err_mono ev st k m hm, ?_,
    triggerEvent_inv ev st h, triggerEvent_trig_sublist ev st,
    fun m hm => triggerEvent_err_mono ev st m hm, ?_⟩
  · intro m hm hlive
    have hlive' : m ∈ st.triggerModules := (triggerVisit_trig_sublist ev st k).subset hlive
    exact h.2 m hlive' hm
  · intro m hm hlive
    have hlive' : m ∈ st.triggerModules := (triggerEvent_trig_sublist ev st).subset hlive
    exact h.2 m hlive' hm

/-- Witness for C3 at a concrete mid-run state in which module a has
already failed while b and c are live. -/
theorem C3_live_error_invariants_witness :
    Inv stC3w ∧
    (Inv (triggerVisit evC3w stC3w 0) ∧
      (triggerVisit evC3w stC3w 0).triggerModules.Sublist stC3w.triggerModules ∧
      (∀ m, m ∈ errorKeys stC3w → m ∈ errorKeys (triggerVisit evC3w stC3w 0)) ∧
      (∀ m, m ∈ errorKeys stC3w → m ∉ (triggerVisit evC3w stC3w 0).triggerModules) ∧
      Inv (triggerEvent evC3w stC3w) ∧
      (triggerEvent evC3w stC3w).triggerModules.Sublist stC3w.triggerModules ∧
      (∀ m, m ∈ errorKeys stC3w → m ∈ errorKeys (triggerEvent evC3w stC3w)) ∧
      (∀ m, m ∈ errorKeys stC3w → m ∉ (triggerEvent evC3w stC3w).triggerModules)) :=
  ⟨by decide, C3_live_error_invariants stC3w evC3w 0 (by decide)⟩

lemma foldl_pushEntry (s : ParserState) :
    ∀ (l : List String) (acc : List (String × Markup)),
      l.foldl (pushEntry s) acc = acc ++ l.filterMap (resultEntry s) := by
  intro l
  induction l with
  | nil => intro acc; simp
  | cons a t ih =>
    intro acc
    rcases hf : resultEntry s a with _ | r <;>
      simp [pushEntry, List.filterMap_cons, hf, ih]

lemma generateResults_fst (s : ParserState) :
    (generateResults s).1 = (sortByDisplayOrder s).filterMap (resultEntry s) := by
  unfold generateResults
  simpa using foldl_pushEntry s (sortByDisplayOrder s) []

lemma filter_orderedInsert_display (st : ParserState) (c : Int) (x : String) :
    ∀ l : List String,
      (List.orderedInsert (displayLE st) x l).filter (fun m => displayKey st m == c)
        = (x :: l).filter (fun m => displayKey st m == c) := by
  intro l
  induction l with
  | nil => rfl
  | cons y t ih =>
    by_cases hxy : displayLE st x y
    · rw [List.orderedInsert_of_le _ _ hxy]
    · have hord : List.orderedInsert (displayLE st) x (y :: t)
          = y :: List.orderedInsert (displayLE st) x t := by
        simp [List.orderedInsert, hxy]
      rw [hord]
      have hxy2 : ¬ (displayKey st x ≤ displayKey st y) := hxy
      have hlt : displayKey st y < displayKey st x := not_le.mp hxy2
      cases hxc : displayKey st x == c with
      | true =>
        have hxe : displayKey st x = c := eq_of_beq hxc
        have hyc : (displayKey st y == c) = false := by
          apply beq_eq_false_iff_ne.mpr
          exact ne_of_lt (hxe ▸ hlt)
        simp [List.filter_cons, hxc, hyc, ih]
      | false =>
        simp [List.filter_cons, hxc, ih]

lemma filter_insertionSort_display (st : ParserState) (c : Int) :
    ∀ l : List String,
      (List.insertionSort (displayLE st) l).filter (fun m => displayKey st m == c)
        = l.filter (fun m => displayKey st m == c) := by
  intro l
  induction l with
  | nil => rfl
  | cons a t ih =>
    rw [List.insertionSort, filter_orderedInsert_display]
    simp only [List.filter_cons, ih]

lemma logExt_refl (s : ParserState) : LogExt s s := ⟨[], by simp, by simp⟩

lemma logExt_trans {a b c : ParserState} (h1 : LogExt a b) (h2 : LogExt b c) :
    LogExt a c := by
  obtain ⟨r1, e1, d1⟩ := h1
  obtain ⟨r2, e2, d2⟩ := h2
  refine ⟨r1 ++ r2, ?_, ?_⟩
  · rw [e2, e1, List.append_assoc]
  · intro x hx
    rcases List.mem_append.mp hx with h | h
    · exact d1 x h
    · exact d2 x h

lemma triggerVisit_logExt (ev : Event) (st : ParserState) (k : Nat) :
    LogExt st (triggerVisit ev st k) := by
  unfold triggerVisit
  split
  · exact logExt_refl _
  · rename_i mod heq
    split
    · refine ⟨[], ?_, by simp⟩
      rw [setModuleError_log]
      exact (List.append_nil _).symm
    · rename_i m hlk
      split
      · refine ⟨[LogEntry.delivered mod ev], ?_, ?_⟩
        · rw [setModuleError_log]
        · intro x hx
          rw [List.mem_singleton] at hx
          subst hx
          exact trivial
      · refine ⟨[LogEntry.delivered mod ev], rfl, ?_⟩
        intro x hx
        rw [List.mem_singleton] at hx
        subst hx
        exact trivial

lemma triggerEvent_logExt (ev : Event) (st : ParserState) :
    LogExt st (triggerEvent ev st) := by
  unfold triggerEvent
  exact foldl_rel logExt_refl (fun a b c h1 h2 => logExt_trans h1 h2)
    (fun s x => triggerVisit_logExt ev s x) _ _

lemma fabricateEvent_logExt (st : ParserState) (p : ProtoEvent) :
    LogExt st (fabricateEvent st p) := triggerEvent_logExt _ st

lemma parseRun_logExt (evs : List Event) (st : ParserState) :
    LogExt st
      (evs.foldl (fun s ev => triggerEvent ev { s with timestamp := ev.timestamp }) st) :=
  foldl_rel logExt_refl (fun a b c h1 h2 => logExt_trans h1 h2)
    (fun s ev =>
      logExt_trans
        (show LogExt s { s with timestamp := ev.timestamp } from ⟨[], by simp, by simp⟩)
        (triggerEvent_logExt ev _)) _ _

lemma normalisePhase_ok_log :
    ∀ (mods : List String) (evs : List Event) (st : ParserState)
      (evs2 : List Event) (st2 : ParserState),
      normalisePhase mods evs st = Except.ok (evs2, st2) →
      st2.log = st.log ++ mods.map LogEntry.normalised := by
  intro mods
  induction mods with
  | nil =>
    intro evs st evs2 st2 h
    simp only [normalisePhase] at h
    injection h with h
    injection h with h1 h2
    subst h2
    simp
  | cons mod rest ih =>
    intro evs st evs2 st2 h
    simp only [normalisePhase] at h
    split at h
    · exact Except.noConfusion h
    · rename_i m hlk
      split at h
      · exact Except.noConfusion h
      · rename_i evs3 hnorm
        rw [ih evs3 _ evs2 st2 h]
        simp

lemma parseEvents_ok_log (st : ParserState) (events : List Event) (st1 : ParserState)
    (h : parseEvents st events = Except.ok st1) :
    ∃ rest, st1.log = st.log ++ st.moduleOrder.map LogEntry.normalised ++ rest ∧
      ∀ x ∈ rest, isDelivery x := by
  unfold parseEvents at h
  split at h
  · exact Except.noConfusion h
  · rename_i evs2 stn hn
    injection h with h2
    have hnlog : stn.log = st.log ++ st.moduleOrder.map LogEntry.normalised :=
      normalisePhase_ok_log st.moduleOrder events st evs2 stn hn
    have hx1 : LogExt stn { stn with triggerModules := stn.moduleOrder } :=
      ⟨[], by simp, by simp⟩
    have hx2 := fabricateEvent_logExt
      { stn with triggerModules := stn.moduleOrder } { type := "init" }
    have hx3 := parseRun_logExt evs2
      (fabricateEvent { stn with triggerModules := stn.moduleOrder } { type := "init" })
    have hx4 := fabricateEvent_logExt
      (List.foldl (fun s ev => triggerEvent ev { s with timestamp := ev.timestamp })
        (fabricateEvent { stn with triggerModules := stn.moduleOrder } { type := "init" })
        evs2)
      { type := "complete" }
    obtain ⟨rest, hr, hd⟩ :=
      logExt_trans (logExt_trans (logExt_trans hx1 hx2) hx3) hx4
    refine ⟨rest, ?_, hd⟩
    rw [← h2, hr, hnlog]

/-- C6: confirmed.  On every completed run the ghost log starts with
exactly one normalise entry per module, in module order, followed only by
delivery entries, so every normalise call completes before any
handleEvent delivery; and a normalise failure is not caught: parseEvents
forwards exactly that error and aborts, so no delivery happens. -/
theorem C6_normalise_once_ordered_uncaught
    (st stB : ParserState) (events eventsB : List Event)
    (L : List LogEntry) (eB : String)
    (h : runLog st events = some L)
    (hB : normalisePhase stB.moduleOrder eventsB stB = Except.error eB) :
    (∃ rest, L = st.log ++ st.moduleOrder.map LogEntry.normalised ++ rest ∧
        ∀ x ∈ rest, isDelivery x) ∧
    parseEvents stB eventsB = Except.error eB := by
  constructor
  · unfold runLog at h
    split at h
    · rename_i st1 hok
      injection h with h
      rw [← h]
      exact parseEvents_ok_log st events st1 hok
    · exact Option.noConfusion h
  · unfold parseEvents
    rw [hB]

/-- Witness for C6: a clean two-module run whose log is the two normalise
entries followed by deliveries, and a run whose single module fails in
normalise, aborting parseEvents with that error. -/
theorem C6_witness :
    (∃ rest, logC6 = stC6.log ++ stC6.moduleOrder.map LogEntry.normalised ++ rest ∧
        ∀ x ∈ rest, isDelivery x) ∧
    parseEvents stC6b [] = Except.error "normalise boom" :=
  C6_normalise_once_ordered_uncaught stC6 stC6b evsC6 [] logC6 "normalise boom"
    (by decide) rfl

/-- C8: confirmed.  generateResults visits the build order re-sorted by
display priority with a stable sort: the visit order is a permutation of
the build order, sorted by the modules' displayOrder keys, and for every
priority value the modules holding it appear in their original build
order (stability).  The emitted entries are exactly the filterMap of
resultEntry over that order: an error-placeholder entry for every module
with a recorded failure, an output entry for every other module whose
output is non-absent, and nothing (no entry, no error) for modules whose
output is absent. -/
theorem C8_results_aggregator (st : ParserState) :
    (sortByDisplayOrder st).Perm st.moduleOrder ∧
    List.Sorted (displayLE st) (sortByDisplayOrder st) ∧
    (∀ c : Int, (sortByDisplayOrder st).filter (fun m => displayKey st m == c)
        = st.moduleOrder.filter (fun m => displayKey st m == c)) ∧
    (generateResults st).1 = (sortByDisplayOrder st).filterMap (resultEntry st) := by
  haveI : IsTotal String (displayLE st) := ⟨fun a b => Int.le_total _ _⟩
  haveI : IsTrans String (displayLE st) := ⟨fun a b c h1 h2 => le_trans h1 h2⟩
  exact ⟨List.perm_insertionSort _ _, List.sorted_insertionSort _ _,
    fun c => filter_insertionSort_display st c st.moduleOrder,
    generateResults_fst st⟩

/-- C10: confirmed.  Calling generateResults again on the state the first
call returned (whose moduleOrder was re-sorted in place) produces the same
report entries in the same order: the stable sort of an already-sorted
order is that order itself, and the error map and instance table are
untouched, so the second pass emits identical entries. -/
theorem C10_generateResults_idempotent (st : ParserState) :
    (generateResults (generateResults st).2).1 = (generateResults st).1 := by
  haveI : IsTotal String (displayLE st) := ⟨fun a b => Int.le_total _ _⟩
  haveI : IsTrans String (displayLE st) := ⟨fun a b c h1 h2 => le_trans h1 h2⟩
  have hsorted : List.Sorted (displayLE st) (sortByDisplayOrder st) :=
    List.sorted_insertionSort _ _
  have hsort2 : sortByDisplayOrder (generateResults st).2 = sortByDisplayOrder st := by
    show List.insertionSort (displayLE st) (sortByDisplayOrder st) = sortByDisplayOrder st
    exact hsorted.insertionSort_eq
  have hre : resultEntry (generateResults st).2 = resultEntry st := rfl
  rw [generateResults_fst, generateResults_fst, hsort2, hre]

lemma exists_min_by {α : Type} (f : α → Nat) :
    ∀ (l : List α), l ≠ [] → ∃ a ∈ l, ∀ b ∈ l, f a ≤ f b := by
  intro l
  induction l with
  | nil => intro h; exact absurd rfl h
  | cons x xs ih =>
    intro _
    by_cases hxs : xs = []
    · subst hxs
      refine ⟨x, List.mem_cons_self x [], ?_⟩
      intro b hb
      rw [List.mem_singleton] at hb
      subst hb
      exact Nat.le_refl _
    · obtain ⟨a, ha, hmin⟩ := ih hxs
      by_cases hfx : f x ≤ f a
      · refine ⟨x, List.mem_cons_self x xs, ?_⟩
        intro b hb
        rcases List.mem_cons.mp hb with hb | hb
        · subst hb; exact Nat.le_refl _
        · exact Nat.le_trans hfx (hmin b hb)
      · refine ⟨a, List.mem_cons_of_mem x ha, ?_⟩
        intro b hb
        rcases List.mem_cons.mp hb with hb | hb
        · subst hb; exact Nat.le_of_lt (Nat.lt_of_not_le hfx)
        · exact hmin b hb

lemma find?_first_in_split {α : Type} (pr : α → Bool) :
    ∀ (r1 : List α) (a : α) (r2 : List α) (p : α),
      pr a = true → (r1 ++ a :: r2).find? pr = some p → p ∈ r1 ∨ p = a := by
  intro r1
  induction r1 with
  | nil =>
    intro a r2 p ha hf
    rw [List.nil_append, List.find?_cons_of_pos _ ha] at hf
    injection hf with hf
    exact Or.inr hf.symm
  | cons b t ih =>
    intro a r2 p ha hf
    rw [List.cons_append] at hf
    cases hb : pr b with
    | true =>
      rw [List.find?_cons_of_pos _ hb] at hf
      injection hf with hf
      exact Or.inl (hf ▸ List.mem_cons_self b t)
    | false =>
      rw [List.find?_cons_of_neg _ (by simp [hb])] at hf
      rcases ih a r2 p ha hf with h | h
      · exact Or.inl (List.mem_cons_of_mem b h)
      · exact Or.inr h

lemma nodup_keys_entry_unique :
    ∀ (l : List (String × Module)), (keysOf l).Nodup →
      ∀ {a b : String × Module}, a ∈ l → b ∈ l → a.1 = b.1 → a = b := by
  intro l
  induction l with
  | nil => intro _ a b ha; exact absurd ha (List.not_mem_nil a)
  | cons p t ih =>
    intro hn a b ha hb hab
    rw [keysOf, List.map_cons] at hn
    have hn1 : p.1 ∉ t.map Prod.fst := (List.nodup_cons.mp hn).1
    have hn2 : (t.map Prod.fst).Nodup := (List.nodup_cons.mp hn).2
    rcases List.mem_cons.mp ha with ha1 | ha2 <;> rcases List.mem_cons.mp hb with hb1 | hb2
    · rw [ha1, hb1]
    · subst ha1
      exact absurd (hab ▸ List.mem_map_of_mem Prod.fst hb2) hn1
    · subst hb1
      exact absurd (hab ▸ List.mem_map_of_mem Prod.fst ha2) hn1
    · exact ih hn2 ha2 hb2 hab

lemma lookupC_eq_of_mem {cons : List (String × Module)}
    (hn : (keysOf cons).Nodup) {k : String} {m : Module}
    (h : (k, m) ∈ cons) : lookupC cons k = some m := by
  unfold lookupC
  rcases hfind : cons.find? (fun p => p.1 == k) with _ | q
  · rw [List.find?_eq_none] at hfind
    exact absurd (by simp : (((k, m) : String × Module).1 == k) = true)
      (by simpa using hfind (k, m) h)
  · have hq1 : (q.1 == k) = true := by
      have := List.find?_some hfind
      simpa using this
    have hqm : q ∈ cons := List.mem_of_find?_eq_some hfind
    have hq : q = (k, m) :=
      nodup_keys_entry_unique cons hn hqm h (by simpa using eq_of_beq hq1)
    rw [hfind, hq]
    rfl

lemma depsOf_eq_of_mem {cons : List (String × Module)}
    (hn : (keysOf cons).Nodup) {k : String} {m : Module}
    (h : (k, m) ∈ cons) : depsOf cons k = m.dependencies := by
  unfold depsOf
  rw [lookupC_eq_of_mem hn h]
  rfl

lemma mem_keysOf_of_mem {cons : List (String × Module)} {p : String × Module}
    (h : p ∈ cons) : p.1 ∈ keysOf cons := List.mem_map_of_mem Prod.fst h

lemma mem_keysOf_iff {cons : List (String × Module)} {x : String} :
    x ∈ keysOf cons ↔ ∃ q ∈ cons, q.1 = x := by
  unfold keysOf
  simp [List.mem_map]

lemma keysOf_filter_ne (remaining : List (String × Module)) (s : String) :
    keysOf (remaining.filter (fun q => !(q.1 == s)))
      = (keysOf remaining).filter (fun t => !(t == s)) := by
  induction remaining with
  | nil => rfl
  | cons q t ih =>
    cases hq : q.1 == s with
    | true =>
      simp only [keysOf, List.map_cons, List.filter_cons, hq] at ih ⊢
      simpa using ih
    | false =>
      simp only [keysOf, List.map_cons, List.filter_cons, hq] at ih ⊢
      simpa using ih

lemma perm_cons_filter_ne :
    ∀ {l : List String} {a : String}, l.Nodup → a ∈ l →
      l.Perm (a :: l.filter (fun t => !(t == a))) := by
  intro l
  induction l with
  | nil => intro a h ha; exact absurd ha (List.not_mem_nil a)
  | cons b t ih =>
    intro a hn ha
    have hn1 : b ∉ t := (List.nodup_cons.mp hn).1
    have hn2 : t.Nodup := (List.nodup_cons.mp hn).2
    rcases List.mem_cons.mp ha with hb | ht
    · subst hb
      have hfil : t.filter (fun t2 => !(t2 == a)) = t := by
        apply List.filter_eq_self.mpr
        intro x hx
        simp only [Bool.not_eq_eq_eq_not, Bool.not_true, beq_eq_false_iff_ne]
        intro he
        exact hn1 (he ▸ hx)
      rw [List.filter_cons]
      simp only [beq_self_eq_true, Bool.not_true, if_neg (by simp : ¬ (false = true))]
      rw [hfil]
    · have hba : b ≠ a := by
        intro he
        exact hn1 (he ▸ ht)
      rw [List.filter_cons]
      have hcond : (!(b == a)) = true := by simp [hba]
      rw [if_pos hcond]
      exact ((ih hn2 ht).cons b).trans (List.Perm.swap a b _)

lemma length_filter_lt_of_mem {α : Type} (pr : α → Bool) :
    ∀ {l : List α} {a : α}, a ∈ l → pr a = false →
      (l.filter pr).length < l.length := by
  intro l
  induction l with
  | nil => intro a ha; exact absurd ha (List.not_mem_nil a)
  | cons b t ih =>
    intro a ha hpa
    rcases List.mem_cons.mp ha with hab | hat
    · subst hab
      rw [List.filter_cons, if_neg (by simp [hpa])]
      exact Nat.lt_succ_of_le (List.length_filter_le _ _)
    · rw [List.filter_cons]
      cases hb : pr b with
      | false =>
        simp only [if_neg (by simp : ¬ (false = true)), List.length_cons]
        exact Nat.lt_succ_of_lt (ih hat hpa)
      | true =>
        simp only [if_pos rfl, List.length_cons]
        exact Nat.succ_lt_succ (ih hat hpa)

lemma kahnLoop_ok_shape :
    ∀ (fuel : Nat) (placed : List String) (remaining : List (String × Module))
      (ord : List String),
      kahnLoop fuel placed remaining = Except.ok ord →
      (keysOf remaining).Nodup →
      ∃ rest, ord = placed ++ rest ∧ rest.Perm (keysOf remaining) := by
  intro fuel
  induction fuel with
  | zero =>
    intro placed remaining ord h hn
    simp only [kahnLoop] at h
    by_cases he : remaining.isEmpty
    · rw [if_pos he] at h
      injection h with h
      rw [List.isEmpty_iff] at he
      exact ⟨[], by rw [← h]; simp, by rw [he]; exact List.Perm.refl _⟩
    · rw [if_neg he] at h
      exact Except.noConfusion h
  | succ n ih =>
    intro placed remaining ord h hn
    simp only [kahnLoop] at h
    split at h
    · by_cases he : remaining.isEmpty
      · rw [if_pos he] at h
        injection h with h
        rw [List.isEmpty_iff] at he
        exact ⟨[], by rw [← h]; simp, by rw [he]; exact List.Perm.refl _⟩
      · rw [if_neg he] at h
        exact Except.noConfusion h
    · rename_i p hf
      have hp : p ∈ remaining := List.mem_of_find?_eq_some hf
      have hkey : p.1 ∈ keysOf remaining := mem_keysOf_of_mem hp
      have hn2 : (keysOf (remaining.filter (fun q => !(q.1 == p.1)))).Nodup := by
        rw [keysOf_filter_ne]
        exact (List.filter_sublist _).nodup hn
      obtain ⟨rest, hordeq, hperm⟩ := ih _ _ _ h hn2
      refine ⟨p.1 :: rest, by rw [hordeq, List.append_assoc]; rfl, ?_⟩
      have hpc := perm_cons_filter_ne hn hkey
      rw [keysOf_filter_ne] at hperm
      exact (hperm.cons p.1).trans hpc.symm

lemma kahnLoop_cycle_stuck (cons : List (String × Module))
    (hkn : (keysOf cons).Nodup) (c : List String) (hc : IsDepCycle cons c) :
    ∀ (fuel : Nat) (placed : List String) (remaining : List (String × Module)),
      remaining.Sublist cons →
      (∀ x ∈ c, x ∈ keysOf remaining) →
      (∀ x ∈ c, x ∉ placed) →
      ∃ l, kahnLoop fuel placed remaining = Except.error l ∧ ∀ x ∈ c, x ∈ l := by
  have hnonempty : ∀ (remaining : List (String × Module)),
      (∀ x ∈ c, x ∈ keysOf remaining) → ¬ remaining.isEmpty := by
    intro remaining hcr hemp
    obtain ⟨x, hx⟩ := List.exists_mem_of_ne_nil c hc.1
    rw [List.isEmpty_iff] at hemp
    subst hemp
    exact absurd (hcr x hx) (List.not_mem_nil x)
  intro fuel
  induction fuel with
  | zero =>
    intro placed remaining hsub hcr hcp
    refine ⟨keysOf remaining, ?_, hcr⟩
    simp only [kahnLoop]
    rw [if_neg (hnonempty remaining hcr)]
  | succ n ih =>
    intro placed remaining hsub hcr hcp
    simp only [kahnLoop]
    rcases hf : remaining.find?
        (fun p => p.2.dependencies.all (fun d => placed.contains d)) with _ | p
    · refine ⟨keysOf remaining, ?_, hcr⟩
      rw [hf, if_neg (hnonempty remaining hcr)]
    · rw [hf]
      have hp_mem : p ∈ remaining := List.mem_of_find?_eq_some hf
      have hp_pred : (p.2.dependencies.all (fun d => placed.contains d)) = true := by
        have := List.find?_some hf
        simpa using this
      have hp_cons : p ∈ cons := hsub.subset hp_mem
      have hpc : p.1 ∉ c := by
        intro hmemc
        obtain ⟨⟨j, hjlt⟩, hjeq⟩ := List.mem_iff_get.mp hmemc
        have hcyc := hc.2 j hjlt
        rw [hjeq] at hcyc
        have hdeps : depsOf cons p.1 = p.2.dependencies :=
          depsOf_eq_of_mem hkn hp_cons
        rw [hdeps] at hcyc
        have hcont : placed.contains
            (c.get ⟨(j+1) % c.length, Nat.mod_lt _ (Nat.lt_of_le_of_lt (Nat.zero_le j) hjlt)⟩)
            = true := List.all_eq_true.mp hp_pred _ hcyc
        have hnp : c.get ⟨(j+1) % c.length,
            Nat.mod_lt _ (Nat.lt_of_le_of_lt (Nat.zero_le j) hjlt)⟩ ∈ placed :=
          List.elem_iff.mp hcont
        exact hcp _ (List.get_mem c _ _) hnp
      refine ih (placed ++ [p.1]) (remaining.filter (fun q => !(q.1 == p.1)))
        ((List.filter_sublist _).trans hsub) ?_ ?_
      · intro x hx
        have hxr := hcr x hx
        have hxp : x ≠ p.1 := fun he => hpc (he ▸ hx)
        rw [keysOf_filter_ne]
        exact List.mem_filter.mpr ⟨hxr, by simp [hxp]⟩
      · intro x hx hxp
        rcases List.mem_append.mp hxp with h1 | h2
        · exact hcp x hx h1
        · exact hpc ((List.mem_singleton.mp h2) ▸ hx)

/-- C5: confirmed against the spec-modelled resolver.  A descriptor set
containing a dependency cycle makes buildModules fail with an error naming
(at least) every module on the cycle, and since the failure happens while
computing the order, buildModules returns no state: the instantiation loop
never runs and no module instance is constructed. -/
theorem C5_cycle_is_fatal (st : ParserState) (c : List String)
    (hkn : (keysOf st.constructors).Nodup) (hc : IsDepCycle st.constructors c) :
    ∃ l, buildModules st = Except.error l ∧ ∀ x ∈ c, x ∈ l := by
  have hcreg : ∀ x ∈ c, x ∈ keysOf st.constructors := by
    intro x hx
    obtain ⟨⟨j, hjlt⟩, hjeq⟩ := List.mem_iff_get.mp hx
    have hcyc := hc.2 j hjlt
    rw [hjeq] at hcyc
    unfold depsOf at hcyc
    rcases hl : lookupC st.constructors x with _ | m
    · rw [hl] at hcyc
      simp at hcyc
    · unfold lookupC at hl
      rcases hfind : st.constructors.find? (fun p => p.1 == x) with _ | q
      · rw [hfind] at hl
        exact Option.noConfusion hl
      · have hqx : (q.1 == x) = true := by
          have := List.find?_some hfind
          simpa using this
        have hq := List.mem_of_find?_eq_some hfind
        have := mem_keysOf_of_mem hq
        rwa [eq_of_beq hqx] at this
  obtain ⟨l, hkl, hcl⟩ := kahnLoop_cycle_stuck st.constructors hkn c hc
    st.constructors.length [] st.constructors (List.Sublist.refl _) hcreg
    (by intro x hx h; exact absurd h (List.not_mem_nil x))
  refine ⟨l, ?_, hcl⟩
  have hres : resolveOrder st.constructors = Except.error l := hkl
  unfold buildModules
  rw [hres]

/-- Witness for C5: the two-cycle a ↔ b fails resolution with an error
naming both. -/
theorem C5_cycle_is_fatal_witness :
    ∃ l, buildModules stC5 = Except.error l ∧ ∀ x ∈ ["a", "b"], x ∈ l :=
  C5_cycle_is_fatal stC5 ["a", "b"] (by decide) (by decide)

lemma kahnLoop_acyclic_ok (cons : List (String × Module))
    (hkn : (keysOf cons).Nodup) (rank : String → Nat)
    (hreg : ∀ p ∈ cons, ∀ d ∈ p.2.dependencies, d ∈ keysOf cons)
    (hrank : ∀ p ∈ cons, ∀ d ∈ p.2.dependencies, rank d < rank p.1) :
    ∀ (fuel : Nat) (placed : List String) (remaining : List (String × Module)),
      remaining.Sublist cons →
      remaining.length ≤ fuel →
      (placed ++ keysOf remaining).Perm (keysOf cons) →
      PlacedOK cons placed →
      ∃ ord, kahnLoop fuel placed remaining = Except.ok ord ∧
        ord.Perm (keysOf cons) ∧ PlacedOK cons ord := by
  intro fuel
  induction fuel with
  | zero =>
    intro placed remaining hsub hlen hperm hpok
    have hre : remaining = [] := List.length_eq_zero.mp (Nat.le_zero.mp hlen)
    subst hre
    refine ⟨placed, by simp [kahnLoop], ?_, hpok⟩
    simpa [keysOf] using hperm
  | succ n ih =>
    intro placed remaining hsub hlen hperm hpok
    by_cases hre : remaining = []
    · subst hre
      refine ⟨placed, by simp [kahnLoop], ?_, hpok⟩
      simpa [keysOf] using hperm
    · obtain ⟨pm, hpmem, hpmin⟩ := exists_min_by (fun p => rank p.1) remaining hre
      have hpm_cons : pm ∈ cons := hsub.subset hpmem
      have hready : (pm.2.dependencies.all (fun d => placed.contains d)) = true := by
        rw [List.all_eq_true]
        intro d hd
        have hdk : d ∈ keysOf cons := hreg pm hpm_cons d hd
        rcases List.mem_append.mp ((hperm.mem_iff).mpr hdk) with hp | hr
        · exact List.elem_iff.mpr hp
        · obtain ⟨q2, hq2, hq2e⟩ := mem_keysOf_iff.mp hr
          have h1 : rank d < rank pm.1 := hrank pm hpm_cons d hd
          have h2 : rank pm.1 ≤ rank q2.1 := hpmin q2 hq2
          rw [hq2e] at h2
          exact absurd h1 (Nat.not_lt.mpr h2)
      rcases hf : remaining.find?
          (fun p2 => p2.2.dependencies.all (fun d => placed.contains d)) with _ | p
      · rw [List.find?_eq_none] at hf
        exact absurd hready (hf pm hpmem)
      · have hp_mem : p ∈ remaining := List.mem_of_find?_eq_some hf
        have hp_pred : (p.2.dependencies.all (fun d => placed.contains d)) = true := by
          have := List.find?_some hf
          simpa using this
        have hp_cons : p ∈ cons := hsub.subset hp_mem
        have hnr : (keysOf remaining).Nodup := (hsub.map Prod.fst).nodup hkn
        have hpfail : (fun q2 => !(q2.1 == p.1)) p = false := by simp
        have hlen2 : (remaining.filter (fun q2 => !(q2.1 == p.1))).length ≤ n :=
          Nat.lt_succ_iff.mp
            (Nat.lt_of_lt_of_le (length_filter_lt_of_mem _ hp_mem hpfail) hlen)
        have hpc := perm_cons_filter_ne hnr (mem_keysOf_of_mem hp_mem)
        have hperm2 : ((placed ++ [p.1])
            ++ keysOf (remaining.filter (fun q2 => !(q2.1 == p.1)))).Perm
              (keysOf cons) := by
          rw [keysOf_filter_ne, List.append_assoc]
          refine List.Perm.trans ?_ hperm
          exact List.Perm.append_left placed hpc.symm
        have hdeps_placed : ∀ d ∈ depsOf cons p.1, d ∈ placed := by
          intro d hd
          rw [depsOf_eq_of_mem hkn hp_cons] at hd
          exact List.elem_iff.mp (List.all_eq_true.mp hp_pred d hd)
        have hpok2 : PlacedOK cons (placed ++ [p.1]) := by
          intro i hi d hd
          by_cases hio : i < placed.length
          · have hgeteq : (placed ++ [p.1]).get ⟨i, hi⟩ = placed.get ⟨i, hio⟩ := by
              rw [List.get_eq_getElem, List.get_eq_getElem]
              exact (List.getElem_append_left' [p.1] hio).symm
            rw [hgeteq] at hd
            have := hpok i hio d hd
            rw [List.take_append_of_le_length (Nat.le_of_lt hio)]
            exact this
          · have hieq : i = placed.length := by
              rw [List.length_append, List.length_singleton] at hi
              omega
            subst hieq
            have hgp : (placed ++ [p.1]).get ⟨placed.length, hi⟩ = p.1 := by
              rw [List.get_eq_getElem]
              exact List.getElem_concat_length placed p.1 placed.length rfl hi
            rw [hgp] at hd
            rw [List.take_left]
            exact hdeps_placed d hd
        obtain ⟨ord, hkeq, hperm3, hpok3⟩ := ih (placed ++ [p.1])
          (remaining.filter (fun q2 => !(q2.1 == p.1)))
          ((List.filter_sublist _).trans hsub) hlen2 hperm2 hpok2
        refine ⟨ord, ?_, hperm3, hpok3⟩
        simp only [kahnLoop]
        rw [hf]
        exact hkeq

/-- C4: confirmed against the spec-modelled resolver.  For an acyclic
descriptor set (acyclicity given by a rank function decreasing along
dependency edges, with unique keys and all dependencies registered),
buildModules succeeds and its order lists every registered identifier
exactly once (a duplicate-free permutation of the keys) with each declared
dependency placed strictly before every module that declares it: the
dependency occurs among the elements taken before the declaring module's
position. -/
theorem C4_resolver_topological_order (st : ParserState) (rank : String → Nat)
    (hkn : (keysOf st.constructors).Nodup)
    (hreg : ∀ p ∈ st.constructors, ∀ d ∈ p.2.dependencies, d ∈ keysOf st.constructors)
    (hrank : ∀ p ∈ st.constructors, ∀ d ∈ p.2.dependencies, rank d < rank p.1) :
    ∃ ord, buildOrderObs st = some ord ∧
      ord.Perm (keysOf st.constructors) ∧ ord.Nodup ∧
      ∀ p ∈ st.constructors, ∀ d ∈ p.2.dependencies,
        ∃ i, ∃ h : i < ord.length, ord.get ⟨i, h⟩ = p.1 ∧ d ∈ ord.take i := by
  obtain ⟨ord, hk, hperm, hpok⟩ := kahnLoop_acyclic_ok st.constructors hkn rank hreg hrank
    st.constructors.length [] st.constructors (List.Sublist.refl _) (Nat.le_refl _)
    (by simp) (by intro i hi; exact absurd hi (Nat.not_lt_zero i))
  have hres : resolveOrder st.constructors = Except.ok ord := hk
  refine ⟨ord, ?_, hperm, (hperm.nodup_iff).mpr hkn, ?_⟩
  · unfold buildOrderObs buildModules
    rw [hres]
    rfl
  · intro p hp d hd
    have hkmem : p.1 ∈ ord := (hperm.mem_iff).mpr (mem_keysOf_of_mem hp)
    obtain ⟨⟨i, hilt⟩, hieq⟩ := List.mem_iff_get.mp hkmem
    refine ⟨i, hilt, hieq, ?_⟩
    apply hpok i hilt
    rw [hieq, depsOf_eq_of_mem hkn hp]
    exact hd

/-- Witness for C4: a dependency registered after its dependent still
resolves, with the dependency placed first. -/
theorem C4_resolver_topological_order_witness :
    ∃ ord, buildOrderObs stC4 = some ord ∧
      ord.Perm (keysOf stC4.constructors) ∧ ord.Nodup ∧
      ∀ p ∈ stC4.constructors, ∀ d ∈ p.2.dependencies,
        ∃ i, ∃ h : i < ord.length, ord.get ⟨i, h⟩ = p.1 ∧ d ∈ ord.take i :=
  C4_resolver_topological_order stC4 rankC4 (by decide) (by decide) (by decide)

lemma kahnLoop_dep_free_first (x y : String) (Mx : Module)
    (hdep : Mx.dependencies = []) (hxy : x ≠ y) :
    ∀ (fuel : Nat) (placed : List String) (remaining : List (String × Module))
      (ord : List String),
      kahnLoop fuel placed remaining = Except.ok ord →
      (keysOf remaining).Nodup →
      (∃ r1 r2, remaining = r1 ++ (x, Mx) :: r2 ∧ ∃ My2, (y, My2) ∈ r2) →
      ∃ o1 o2, ord = o1 ++ x :: o2 ∧ y ∈ o2 := by
  intro fuel
  induction fuel with
  | zero =>
    intro placed remaining ord h hn hsplit
    obtain ⟨r1, r2, hre, _⟩ := hsplit
    simp only [kahnLoop] at h
    rw [if_neg (by rw [hre]; simp)] at h
    exact Except.noConfusion h
  | succ n ih =>
    intro placed remaining ord h hn hsplit
    obtain ⟨r1, r2, hre, My2, hy⟩ := hsplit
    have hxpred : ((x, Mx).2.dependencies.all (fun d => placed.contains d)) = true := by
      simp [hdep]
    simp only [kahnLoop] at h
    split at h
    · rename_i hf
      rw [List.find?_eq_none] at hf
      have hxmem : ((x, Mx) : String × Module) ∈ remaining := by
        rw [hre]
        exact List.mem_append_right _ (List.mem_cons_self _ _)
      exact absurd hxpred (hf (x, Mx) hxmem)
    · rename_i p hf
      have hkeys : keysOf remaining = keysOf r1 ++ x :: keysOf r2 := by
        rw [hre]
        simp [keysOf]
      have hyk : y ∈ keysOf r2 := mem_keysOf_of_mem hy
      have hnparts := List.nodup_append.mp (hkeys ▸ hn)
      have hfirst := find?_first_in_split _ r1 (x, Mx) r2 p hxpred (hre ▸ hf)
      rcases hfirst with hpr1 | hpx
      · have hp1k : p.1 ∈ keysOf r1 := mem_keysOf_of_mem hpr1
        have hpx1 : p.1 ≠ x := by
          intro he
          exact (hnparts.2.2 (he ▸ hp1k)) (List.mem_cons_self x _)
        have hpy1 : p.1 ≠ y := by
          intro he
          exact (hnparts.2.2 (he ▸ hp1k)) (List.mem_cons_of_mem x hyk)
        have hn2 : (keysOf (remaining.filter (fun q => !(q.1 == p.1)))).Nodup := by
          rw [keysOf_filter_ne]
          exact (List.filter_sublist _).nodup hn
        refine ih (placed ++ [p.1]) (remaining.filter (fun q => !(q.1 == p.1)))
          ord h hn2 ?_
        refine ⟨r1.filter (fun q => !(q.1 == p.1)),
          r2.filter (fun q => !(q.1 == p.1)), ?_, My2, ?_⟩
        · rw [hre, List.filter_append, List.filter_cons]
          rw [if_pos (by simp [Ne.symm hpx1] : (!(((x, Mx) : String × Module).1 == p.1)) = true)]
        · exact List.mem_filter.mpr ⟨hy, by simp [Ne.symm hpy1]⟩
      · subst hpx
        have hn2 : (keysOf (remaining.filter
            (fun q => !(q.1 == ((x, Mx) : String × Module).1)))).Nodup := by
          rw [keysOf_filter_ne]
          exact (List.filter_sublist _).nodup hn
        obtain ⟨rest, hord, hperm⟩ := kahnLoop_ok_shape n _ _ ord h hn2
        refine ⟨placed, rest, ?_, ?_⟩
        · rw [hord, List.append_assoc]
          rfl
        · apply (hperm.mem_iff).mpr
          rw [keysOf_filter_ne]
          apply List.mem_filter.mpr
          refine ⟨?_, by simp [Ne.symm hxy]⟩
          rw [hkeys]
          exact List.mem_append_right _ (List.mem_cons_of_mem x hyk)

/-- C9: refuted as universally stated, against the spec-modelled resolver.
With a registered before b, and a depending on the later-registered z, any
topological order must put z (hence, here, the resolver puts b too) before
a: the pair (a, b) has no dependency path either way, a precedes b in
registration order, yet b precedes a in the computed order.  No resolver
could satisfy the claim on this input, since keeping both unconstrained
pairs (a,b) and (b,z) in registration order contradicts the z-before-a
constraint. -/
theorem C9_registration_order_counterexample :
    buildOrderObs stC9 = some ["b", "z", "a"] ∧
    dependsOn consC9 "a" "b" = false ∧
    dependsOn consC9 "b" "a" = false ∧
    (keysOf consC9).indexOf "a" < (keysOf consC9).indexOf "b" ∧
    (["b", "z", "a"] : List String).indexOf "b"
      < (["b", "z", "a"] : List String).indexOf "a" :=
  ⟨by decide, by decide, by decide, by decide, by decide⟩

/-- C9 amended: confirmed against the spec-modelled resolver.  A module
that declares no dependencies is placed before every module registered
after it; in particular two modules that both declare no dependencies
(and hence have no ordering constraint between them) keep their
registration order. -/
theorem C9_dep_free_keeps_registration_order
    (st : ParserState) (x y : String) (Mx My : Module) (ord : List String)
    (hkn : (keysOf st.constructors).Nodup)
    (hord : buildOrderObs st = some ord)
    (hsplit : ∃ l1 l2, st.constructors = l1 ++ (x, Mx) :: l2 ∧ (y, My) ∈ l2)
    (hdep : Mx.dependencies = []) :
    ∃ o1 o2, ord = o1 ++ x :: o2 ∧ y ∈ o2 := by
  obtain ⟨l1, l2, hre, hy⟩ := hsplit
  have hxy : x ≠ y := by
    intro he
    rw [hre, keysOf, List.map_append, List.map_cons] at hkn
    have hparts := List.nodup_append.mp hkn
    have hx2 : (x :: l2.map Prod.fst).Nodup := hparts.2.1
    exact (List.nodup_cons.mp hx2).1 (he ▸ List.mem_map_of_mem Prod.fst hy)
  have hres : resolveOrder st.constructors = Except.ok ord := by
    unfold buildOrderObs buildModules at hord
    rcases hr : resolveOrder st.constructors with e | order
    · rw [hr] at hord
      exact Option.noConfusion hord
    · rw [hr] at hord
      simp only [Except.toOption, Option.map] at hord
      injection hord with hord
      rw [hord]
  exact kahnLoop_dep_free_first x y Mx hdep hxy st.constructors.length []
    st.constructors ord hres hkn ⟨l1, l2, hre, My, hy⟩

/-- Witness for the amended C9: two dependency-free modules resolve in
registration order. -/
theorem C9_dep_free_keeps_registration_order_witness :
    ∃ o1 o2, (["x", "y"] : List String) = o1 ++ "x" :: o2 ∧ "y" ∈ o2 :=
  C9_dep_free_keeps_registration_order stC9w "x" "y"
    (mkModule "X" [] 0 [] none) (mkModule "Y" [] 0 [] none) ["x", "y"]
    (by decide) rfl
    ⟨[], [("y", mkModule "Y" [] 0 [] none)], rfl, List.mem_singleton_self _⟩ rfl

/-- C1: refuted on the code as written.  Module e declares no dependency
path to the failing module a, yet the cascade triggered by a removes e
from event delivery: the cascade visits d twice (once through b, once
directly), and the second `splice(indexOf(d), 1)` runs with `indexOf`
returning -1, deleting the last element of `_triggerModules`, which is the
unrelated e.  The run ends with no live modules, e absent from the error
map, and the complete event delivered to nobody. -/
theorem C1_cascade_removes_unrelated_module :
    dependsOn consC1 "e" "a" = false ∧
    runObs stC1 evsC1 = some (logC1, [], errsC1) ∧
    "e" ∉ errsC1.map Prod.fst ∧
    logC1.count (LogEntry.delivered "e" ⟨"complete", 5, true⟩) = 0 ∧
    logC1.count (LogEntry.delivered "e" ⟨"cast", 5, false⟩) = 0 := by
  refine ⟨rfl, by decide, by decide, by decide, by decide⟩

/-- C2: refuted on the code as written.  When a throws on the cast event,
`_setModuleError` splices a out of `_triggerModules` while `forEach` is
iterating it, so the module that shifts into the vacated slot (b) is
skipped for that event: b is live, records no error, receives the later
heal and complete events, yet never receives the cast event. -/
theorem C2_forEach_splice_skips_live_module :
    runObs stC2 evsC2 = some (logC2, ["b", "c"], [("a", ModuleError.runtime)]) ∧
    "b" ∈ (["b", "c"] : List String) ∧
    logC2.count (LogEntry.delivered "b" ⟨"cast", 5, false⟩) = 0 ∧
    logC2.count (LogEntry.delivered "b" ⟨"heal", 7, false⟩) = 1 := by
  refine ⟨by decide, by decide, by decide, by decide⟩

/-- C7: refuted on the code as written.  When a throws while handling the
fabricated init event, the same forEach/splice interaction skips b for the
init delivery: b stays live through the whole run (it receives the cast
and complete events) but never receives init, although it was live when
init was fabricated. -/
theorem C7_init_skipped_for_live_module :
    runObs stC7 evsC7 = some (logC7, ["b"], [("a", ModuleError.runtime)]) ∧
    "b" ∈ (["b"] : List String) ∧
    logC7.count (LogEntry.delivered "b" ⟨"init", 0, true⟩) = 0 ∧
    logC7.count (LogEntry.delivered "b" ⟨"cast", 5, false⟩) = 1 ∧
    logC7.count (LogEntry.delivered "b" ⟨"complete", 5, true⟩) = 1 := by
  refine ⟨by decide, by decide, by decide, by decide, by decide⟩

end Xiv
